import Mathlib

/-!
Verification development for the todoman CLI core (`src/todoman/cli.py`).

The visible source is the command dispatcher `cli.py`; the collaborator
modules (`model.py`, `main.py`, `ui.py`, `configuration.py`) are not part
of the given source, so the record model, `get_todo`, the id-file and the
sort comparator are modelled from the specification where needed (each
such definition says so in its doc comment).  Times are modelled as `Int`
seconds; `timedelta(days=7)` is `7 * 86400` seconds.
-/

/-- Modelled from the spec (§6, data model of the storage collaborator,
`model.Todo` is not part of the given source): record fields are exactly
summary, due (optional timestamp), is_completed, completed_at (optional
timestamp) and filename. -/
structure Todo where
  summary : String
  due : Option Int
  is_completed : Bool
  completed_at : Option Int
  filename : String
  deriving Repr, DecidableEq

/-- Modelled from the spec (§3, `model.Database` is not part of the given
source): a List owns a name and an in-memory mapping from filename to
record, represented as an association list (a Python dict has unique keys;
uniqueness is stated as a hypothesis where a proof needs it). -/
structure Database where
  name : String
  todos : List (String × Todo)
  deriving Repr, DecidableEq

/-- The collection `ctx.obj['db']`: a mapping from list name to Database. -/
abbrev Coll := List (String × Database)

/-- Lookup in an association list, as a Python dict lookup on unique keys. -/
def alist_get {α β : Type} [DecidableEq α] : List (α × β) → α → Option β
  | [], _ => none
  | (k, v) :: rest, a => if k = a then some v else alist_get rest a

/-- Update (or insert) a key in an association list, as a Python dict
assignment. -/
def alist_set {α β : Type} [DecidableEq α] : List (α × β) → α → β → List (α × β)
  | [], k, v => [(k, v)]
  | (k', v') :: rest, k, v =>
      if k' = k then (k, v) :: rest else (k', v') :: alist_set rest k v

/-- One entry of the glob expansion in `cli` (cli.py lines 56-62): a path,
whether it is a directory, and the Database that opening it yields (the
name is derived from the path by the storage collaborator). -/
structure PathEntry where
  path : String
  isDir : Bool
  db : Database
  deriving Repr, DecidableEq

/-- Collection build loop of `cli` (cli.py lines 56-62): skip non-directory
matches; open each directory as a Database; `databases.setdefault(db.name,
db) is not db` raises a RuntimeError whenever the name is already present,
because each iteration opens a fresh instance. -/
def build_dbs : List PathEntry → Coll → Except String Coll
  | [], acc => .ok acc
  | e :: rest, acc =>
      if e.isDir then
        match alist_get acc e.db.name with
        | some _ => .error ("Detected two databases named " ++ e.db.name)
        | none => build_dbs rest (acc ++ [(e.db.name, e.db)])
      else
        build_dbs rest acc

/-- The directory entries of a glob expansion, in order. -/
def dirEntries (entries : List PathEntry) : List PathEntry :=
  entries.filter fun e => e.isDir

/-- The filter of the `list` command (cli.py lines 162-166): keep a record
if it is not completed, or its completed_at is present (Python truthiness
of a datetime) and completed_at + 7 days >= now. -/
def listFilter (now : Int) (t : Todo) : Bool :=
  !t.is_completed ||
    (match t.completed_at with
     | none => false
     | some c => decide (c + 7 * 86400 ≥ now))

/-- Validation of one list name (cli.py `_validate_list_param`): return the
Database stored under the name, else a BadParameter error naming the
available lists. -/
def _validate_list_param (db : Coll) (name : String) : Except String Database :=
  match alist_get db name with
  | some d => .ok d
  | none =>
      .error (name ++ ". Available lists are: " ++
        String.intercalate ", " (db.map Prod.fst))

/-- The list comprehension of `_validate_lists_param`, validating each name
left to right; the first BadParameter propagates. -/
def _validate_lists_go (db : Coll) : List String → Except String (List Database)
  | [] => .ok []
  | n :: rest =>
      match _validate_list_param db n with
      | .error e => .error e
      | .ok d =>
          match _validate_lists_go db rest with
          | .error e => .error e
          | .ok ds => .ok (d :: ds)

/-- Validation of the name filters (cli.py `_validate_lists_param`): an
empty filter list selects every Database in the collection, otherwise each
name is validated. -/
def _validate_lists_param (db : Coll) (lists : List String) :
    Except String (List Database) :=
  if lists.isEmpty then .ok (db.map Prod.snd) else _validate_lists_go db lists

/-- The filtered, sorted row list of the `list` command (cli.py lines
157-170): the union of the selected lists' records, filtered by
`listFilter`, sorted by the external comparator `task_sort_func` (a
parameter here: `main.task_sort_func` is not part of the given source)
with `reverse=True`, i.e. descending and stable. -/
def list_rows (sortKey : Todo → Int) (now : Int) (selected : List Database) :
    List (Database × Todo) :=
  ((selected.flatMap fun d => d.todos.map fun q => (d, q.2)).filter
      fun p => listFilter now p.2).mergeSort
    fun x y => decide (sortKey y.2 ≤ sortKey x.2)

/-- Python `"{:2d}".format(index)`: decimal, right-aligned to width 2. -/
def fmt2d (n : Nat) : String :=
  if n < 10 then " " ++ toString n else toString n

/-- The error line printed when rendering one record raises (cli.py lines
180-182), attributed to `os.path.join(database.name, todo.filename)`. -/
def errorLine (d : Database) (t : Todo) (e : String) : String :=
  "Error while showing " ++ d.name ++ "/" ++ t.filename ++ ": " ++ e

/-- The render loop of the `list` command (cli.py lines 171-184): each row
gets the next 1-based position recorded in `ids` before rendering; a
rendering failure is caught and replaced by an inline error line, and the
loop continues.  `render` models `formatter.compact`, which may raise. -/
def render_loop (render : Database → Todo → Except String String) :
    List (Database × Todo) → Nat → List (Nat × String × String) × List String
  | [], _ => ([], [])
  | (d, t) :: rest, index =>
      let line :=
        match render d t with
        | .ok s => fmt2d index ++ " " ++ s
        | .error e => errorLine d t e
      let r := render_loop render rest (index + 1)
      ((index, d.name, t.filename) :: r.1, line :: r.2)

/-- The index mapping the render loop accumulates: position ↦ (list name,
filename), positions counted from `i`. -/
def idsFrom : Nat → List (Database × Todo) → List (Nat × String × String)
  | _, [] => []
  | i, (d, t) :: rest => (i, d.name, t.filename) :: idsFrom (i + 1) rest

/-- The whole `list` command (cli.py lines 144-184): validate the name
filters, build the rows, run the render loop from position 1; the
resulting index is what `dump_idfile` persists (the spec, §6, requires the
id-file to round-trip the written triples exactly, so the written mapping
itself stands for the file). -/
def list_cmd (render : Database → Todo → Except String String)
    (sortKey : Todo → Int) (now : Int) (db : Coll) (lists : List String) :
    Except String (List (Nat × String × String) × List String) :=
  match _validate_lists_param db lists with
  | .error e => .error e
  | .ok selected => .ok (render_loop render (list_rows sortKey now selected) 1)

/-- Modelled from the spec (§4.3, `main.get_todo` is not part of the given
source): resolve a positive integer id through the persisted index cache;
a missing position is a "no task found" error, a stale entry (list or
record gone) a "task not found" error; otherwise return the record and its
owning Database. -/
def get_todo (db : Coll) (idfile : List (Nat × String × String)) (id : Nat) :
    Except String (Todo × Database) :=
  match alist_get idfile id with
  | none => .error "no task found"
  | some (listName, fname) =>
      match alist_get db listName with
      | none => .error "task not found"
      | some d =>
          match alist_get d.todos fname with
          | none => .error "task not found"
          | some t => .ok (t, d)

/-- Modelled from the spec (§6, `List.save` of the storage collaborator is
not part of the given source): persist one record into its owning list,
keyed by its filename. -/
def Database.save (d : Database) (t : Todo) : Database :=
  { d with todos := alist_set d.todos t.filename t }

/-- Modelled from the spec (§4.4: the completion operation "sets
is_completed = true and completed_at = now"; the `Todo.is_completed`
setter lives in the model module, not part of the given source). -/
def complete_todo (now : Int) (t : Todo) : Todo :=
  { t with is_completed := true, completed_at := some now }

/-- Saving a record back into the collection: the Database under the given
name is replaced by the saved one. -/
def coll_save (db : Coll) (name : String) (t : Todo) : Coll :=
  db.map fun p => if p.1 = name then (p.1, p.2.save t) else p

/-- The `done` command loop (cli.py lines 134-141): for each id in order,
resolve it, set is_completed (which sets completed_at with it) and save.
There is no exception handling around the loop body, so a failing
resolution propagates: the loop stops, the error is the command's failure
(second component), and the remaining ids are not processed. -/
def done_cmd (now : Int) (db : Coll) (idfile : List (Nat × String × String)) :
    List Nat → Coll × Option String
  | [] => (db, none)
  | id :: rest =>
      match get_todo db idfile id with
      | .error e => (db, some e)
      | .ok (todo, database) =>
          done_cmd now (coll_save db database.name (complete_todo now todo))
            idfile rest

/-- Argument validation `click.IntRange(0)` used by `with_id_arg` and by
`done`'s ids argument (cli.py lines 14 and 133): an integer is accepted
exactly when it is at least the minimum 0. -/
def intRangeCheck (lo : Int) (n : Int) : Bool :=
  decide (lo ≤ n)

/-- Acceptance of an id argument by `with_id_arg` (cli.py line 14). -/
def with_id_arg_ok (n : Int) : Bool :=
  intRangeCheck 0 n

/-- Outcome of the `new` command (cli.py lines 85-104). -/
inductive NewOutcome where
  | cancelled
  | usageError
  | saved (d : Database) (t : Todo)
  deriving Repr, DecidableEq

/-- The draft record built at the start of the `new` command (cli.py lines
90-92): summary joined with spaces, the parsed due date, nothing else. -/
def new_draft (summary : List String) (due : Option Int) : Todo :=
  { summary := String.intercalate " " summary
    due := due
    is_completed := false
    completed_at := none
    filename := "" }

/-- The `new` command (cli.py lines 85-104): build the draft record; in
interactive mode the editor (a parameter: `ui.TodoEditor` is not part of
the given source; it returns a was-saved flag and the possibly mutated
record) may cancel, which exits with status 1 before any save; an empty
summary is a usage error; otherwise the record is saved into the target
list. -/
def new_cmd (editor : Todo → Bool × Todo) (summary : List String)
    (list : Database) (due : Option Int) (interactive : Bool) : NewOutcome :=
  let todo : Todo := new_draft summary due
  if interactive then
    match editor todo with
    | (false, _) => .cancelled
    | (true, t) =>
        if t.summary = "" then .usageError else .saved (list.save t) t
  else
    if todo.summary = "" then .usageError else .saved (list.save todo) todo

/-- The `edit` command (cli.py lines 110-117): resolve the id, run the
editor; persist back to the owning Database only when the editor reports a
save (`some` of the saved Database and record), otherwise do nothing
(`none`). -/
def edit_cmd (editor : Todo → Bool × Todo) (db : Coll)
    (idfile : List (Nat × String × String)) (id : Nat) :
    Except String (Option (Database × Todo)) :=
  match get_todo db idfile id with
  | .error e => .error e
  | .ok (todo, database) =>
      match editor todo with
      | (true, t) => .ok (some (database.save t, t))
      | (false, _) => .ok none

/-- The line the render loop prints for the row at a given position. -/
def lineOf (render : Database → Todo → Except String String) (i : Nat)
    (p : Database × Todo) : String :=
  match render p.1 p.2 with
  | .ok s => fmt2d i ++ " " ++ s
  | .error e => errorLine p.1 p.2 e

/-- Example record used to instantiate the theorems below. -/
def exTodo0 : Todo :=
  { summary := "buy milk"
    due := none
    is_completed := false
    completed_at := none
    filename := "a.ics" }

/-- Example Database holding `exTodo0`. -/
def exDb0 : Database :=
  { name := "l", todos := [("a.ics", exTodo0)] }

/-- Example collection with the single list `l`. -/
def exColl : Coll := [("l", exDb0)]

/-- Example index cache, as written by a `list` call that produced the one
row of `exColl`. -/
def exIdfile : List (Nat × String × String) := [(1, "l", "a.ics")]

/-- Lookup misses exactly the keys that are absent. -/
theorem alist_get_eq_none {α β : Type} [DecidableEq α]
    (l : List (α × β)) (a : α) :
    alist_get l a = none ↔ a ∉ l.map Prod.fst := by
  induction l with
  | nil => simp [alist_get]
  | cons p rest ih =>
      obtain ⟨k, v⟩ := p
      by_cases h : k = a <;> simp [alist_get, h, ih, Ne.symm]

/-- On unique keys, lookup finds any present binding. -/
theorem alist_get_of_mem {α β : Type} [DecidableEq α]
    {l : List (α × β)} (hnd : (l.map Prod.fst).Nodup)
    {a : α} {b : β} (h : (a, b) ∈ l) :
    alist_get l a = some b := by
  induction l with
  | nil => simp at h
  | cons p rest ih =>
      obtain ⟨k, v⟩ := p
      simp only [List.map_cons, List.nodup_cons] at hnd
      rcases List.mem_cons.mp h with h1 | h1
      · obtain ⟨hk, hv⟩ := Prod.mk.injEq .. ▸ h1
        simp [alist_get, hk.symm, hv]
      · have hka : k ≠ a := by
          intro hk
          exact hnd.1 (hk ▸ List.mem_map.mpr ⟨(a, b), h1, rfl⟩)
        simp [alist_get, hka, ih hnd.2 h1]

/-- A successful lookup comes from a binding in the list. -/
theorem alist_get_mem {α β : Type} [DecidableEq α]
    {l : List (α × β)} {a : α} {b : β} (h : alist_get l a = some b) :
    (a, b) ∈ l := by
  induction l with
  | nil => simp [alist_get] at h
  | cons p rest ih =>
      obtain ⟨k, v⟩ := p
      by_cases hk : k = a
      · simp [alist_get, hk] at h
        simp [hk, h]
      · simp [alist_get, hk] at h
        exact List.mem_cons_of_mem _ (ih h)

/-- Updating a key makes lookup of that key return the new value. -/
theorem alist_get_set_self {α β : Type} [DecidableEq α]
    (l : List (α × β)) (k : α) (v : β) :
    alist_get (alist_set l k v) k = some v := by
  induction l with
  | nil => simp [alist_set, alist_get]
  | cons p rest ih =>
      obtain ⟨k', v'⟩ := p
      by_cases h : k' = k <;> simp [alist_set, alist_get, h, ih]

/-- The index side of the render loop is exactly `idsFrom`. -/
theorem render_loop_fst (render : Database → Todo → Except String String)
    (rows : List (Database × Todo)) (i : Nat) :
    (render_loop render rows i).1 = idsFrom i rows := by
  induction rows generalizing i with
  | nil => rfl
  | cons p rest ih =>
      obtain ⟨d, t⟩ := p
      simp [render_loop, idsFrom, ih]

/-- The render loop prints one line per row: no row aborts the loop. -/
theorem render_loop_snd_length
    (render : Database → Todo → Except String String)
    (rows : List (Database × Todo)) (i : Nat) :
    (render_loop render rows i).2.length = rows.length := by
  induction rows generalizing i with
  | nil => rfl
  | cons p rest ih =>
      obtain ⟨d, t⟩ := p
      simp [render_loop, ih]

/-- The line printed for the row at offset k carries position i + k. -/
theorem render_loop_snd_get
    (render : Database → Todo → Except String String)
    (rows : List (Database × Todo)) (i k : Nat)
    (h : k < rows.length) (h2 : k < (render_loop render rows i).2.length) :
    (render_loop render rows i).2.get ⟨k, h2⟩ =
      lineOf render (i + k) (rows.get ⟨k, h⟩) := by
  induction rows generalizing i k with
  | nil => simp at h
  | cons p rest ih =>
      obtain ⟨d, t⟩ := p
      match k with
      | 0 => simp [render_loop, lineOf]
      | k' + 1 =>
          have h' : k' < rest.length := by simpa using h
          have h2' : k' < (render_loop render rest (i + 1)).2.length := by
            rw [render_loop_snd_length]; exact h'
          have := ih (i + 1) k' h' h2'
          simp only [render_loop, List.get_cons_succ]
          rw [this]
          congr 1
          omega

/-- Positions below the starting index are absent from the index. -/
theorem idsFrom_lookup_none (rows : List (Database × Todo)) (i k : Nat)
    (h : k < i) :
    alist_get (idsFrom i rows) k = none := by
  induction rows generalizing i with
  | nil => rfl
  | cons p rest ih =>
      obtain ⟨d, t⟩ := p
      have hik : i ≠ k := by omega
      simp [idsFrom, alist_get, hik, ih (i + 1) (by omega)]

/-- Looking up position k in the index built from offset i returns the
(list name, filename) of the row at offset k - i. -/
theorem idsFrom_lookup (rows : List (Database × Todo)) (i k : Nat)
    (hik : i ≤ k) (h : k - i < rows.length) :
    alist_get (idsFrom i rows) k =
      some ((rows.get ⟨k - i, h⟩).1.name, (rows.get ⟨k - i, h⟩).2.filename) := by
  induction rows generalizing i with
  | nil => simp at h
  | cons p rest ih =>
      obtain ⟨d, t⟩ := p
      by_cases hk : i = k
      · subst hk
        simp [idsFrom, alist_get]
      · have hik' : i + 1 ≤ k := by omega
        have hki : k - i = (k - (i + 1)) + 1 := by omega
        have h' : k - (i + 1) < rest.length := by
          simp only [List.length_cons] at h; omega
        have := ih (i + 1) hik' h'
        simp only [idsFrom, alist_get, hk, if_false]
        rw [this]
        congr 2 <;> rw [List.get_of_eq rfl] <;>
          simp [hki, List.get_cons_succ]

/-- Membership in the row list of `list`: a (Database, record) pair is a
row exactly when the Database was selected, the record belongs to it, and
the record passes the completion/recency filter. -/
theorem mem_list_rows (sortKey : Todo → Int) (now : Int)
    (sel : List Database) (d : Database) (t : Todo) :
    (d, t) ∈ list_rows sortKey now sel ↔
      d ∈ sel ∧ (∃ fn, (fn, t) ∈ d.todos) ∧ listFilter now t = true := by
  unfold list_rows
  rw [List.mem_mergeSort, List.mem_filter, List.mem_flatMap]
  constructor
  · rintro ⟨⟨d', hd', hmem⟩, hf⟩
    rw [List.mem_map] at hmem
    obtain ⟨q, hq, heq⟩ := hmem
    have hd : d' = d := congrArg Prod.fst heq
    have ht : q.2 = t := congrArg Prod.snd heq
    subst hd
    exact ⟨hd', ⟨q.1, ht ▸ hq⟩, hf⟩
  · rintro ⟨hd, ⟨fn, hfn⟩, hf⟩
    exact ⟨⟨d, hd, List.mem_map.mpr ⟨(fn, t), hfn, rfl⟩⟩, hf⟩

/-- C2 counterexample: the claim says a record completed exactly 7 days
and 0 seconds before now is excluded, but the filter of `list` (cli.py
lines 162-166) uses `>=`, so with now = 604800 a record whose completed_at
is 0 = now - 7 days is included. -/
theorem C2_boundary_included :
    (604800 : Int) - 7 * 86400 = 0 ∧
    listFilter 604800 { summary := "t", due := none, is_completed := true,
                        completed_at := some 0, filename := "t.ics" } = true := by
  constructor <;> decide

/-- C2 (amended): membership in the rows of `list` is exactly selection,
ownership and the filter; and the filter includes a record precisely when
it is not completed, or its completed_at is present and within the
trailing 7-day window ending at now, the window's lower bound inclusive
(a record completed exactly 7 days before now is included). -/
theorem C2_filter_window (sortKey : Todo → Int) (now : Int)
    (sel : List Database) (d : Database) (t : Todo) :
    ((d, t) ∈ list_rows sortKey now sel ↔
      d ∈ sel ∧ (∃ fn, (fn, t) ∈ d.todos) ∧ listFilter now t = true) ∧
    (listFilter now t = true ↔
      (t.is_completed = false ∨
        ∃ c, t.completed_at = some c ∧ now ≤ c + 7 * 86400)) := by
  refine ⟨mem_list_rows sortKey now sel d t, ?_⟩
  unfold listFilter
  cases hic : t.is_completed <;> cases hca : t.completed_at <;>
    simp [hic, hca, ge_iff_le]

/-- C10: a malformed record with is_completed true but completed_at absent
is excluded by the filter of `list` without any error: the recency
comparison is guarded by the presence check on completed_at. -/
theorem C10_malformed_completed_excluded (now : Int) (t : Todo)
    (h1 : t.is_completed = true) (h2 : t.completed_at = none) :
    listFilter now t = false ∧
    ∀ (sortKey : Todo → Int) (sel : List Database) (d : Database),
      (d, t) ∉ list_rows sortKey now sel := by
  have hf : listFilter now t = false := by
    unfold listFilter; simp [h1, h2]
  refine ⟨hf, fun sortKey sel d hmem => ?_⟩
  have hc := ((mem_list_rows sortKey now sel d t).mp hmem).2.2
  rw [hf] at hc
  exact Bool.false_ne_true hc

/-- C10 witness: a concrete malformed record is excluded. -/
theorem C10_malformed_completed_excluded_witness :
    listFilter 604800 { summary := "t", due := none, is_completed := true,
                        completed_at := none, filename := "t.ics" } = false ∧
    ∀ (sortKey : Todo → Int) (sel : List Database) (d : Database),
      (d, ({ summary := "t", due := none, is_completed := true,
             completed_at := none, filename := "t.ics" } : Todo))
        ∉ list_rows sortKey 604800 sel :=
  C10_malformed_completed_excluded 604800
    { summary := "t", due := none, is_completed := true,
      completed_at := none, filename := "t.ics" } rfl rfl

/-- C9 counterexample: the claim says every non-positive id argument is
rejected before resolution, but `with_id_arg` is `click.IntRange(0)`
(cli.py line 14), which accepts the non-positive id 0. -/
theorem C9_zero_accepted :
    with_id_arg_ok 0 = true ∧ ¬ ((0 : Int) > 0) := by
  constructor <;> decide

/-- C9 (amended): the id arguments of show/edit/done are validated by
IntRange(0): an integer is accepted exactly when it is >= 0 (negative and
malformed arguments are rejected before resolution), and the accepted id
0 fails at index resolution, since the positions written by `list` start
at 1. -/
theorem C9_id_arg_domain :
    (∀ n : Int, with_id_arg_ok n = true ↔ 0 ≤ n) ∧
    (∀ (db : Coll) (render : Database → Todo → Except String String)
       (rows : List (Database × Todo)),
       get_todo db (render_loop render rows 1).1 0 = .error "no task found") := by
  constructor
  · intro n
    simp [with_id_arg_ok, intRangeCheck]
  · intro db render rows
    have h := idsFrom_lookup_none rows 1 0 (by omega)
    unfold get_todo
    rw [render_loop_fst, h]

/-- Invariant of the collection build loop: starting from an accumulator
with distinct names, a successful run appends exactly the directory
entries and keeps names distinct, and a name clash (against the
accumulator or among the directory entries) forces an error. -/
theorem build_dbs_spec (entries : List PathEntry) :
    ∀ acc : Coll, (acc.map Prod.fst).Nodup →
      (∀ coll, build_dbs entries acc = .ok coll →
        coll = acc ++ (dirEntries entries).map (fun e => (e.db.name, e.db)) ∧
        (coll.map Prod.fst).Nodup) ∧
      (¬ (acc.map Prod.fst ++
            (dirEntries entries).map (fun e => e.db.name)).Nodup →
        ∃ msg, build_dbs entries acc = .error msg) := by
  induction entries with
  | nil =>
      intro acc hnd
      refine ⟨fun coll hok => ?_, fun hdup => ?_⟩
      · have : acc = coll := by
          simpa [build_dbs] using hok
        simp [← this, dirEntries, hnd]
      · exact absurd (by simpa [dirEntries] using hnd) hdup
  | cons e rest ih =>
      intro acc hnd
      by_cases hdir : e.isDir
      · have hde : dirEntries (e :: rest) = e :: dirEntries rest := by
          simp [dirEntries, hdir]
        cases hget : alist_get acc e.db.name with
        | some d =>
            have hbuild : build_dbs (e :: rest) acc =
                .error ("Detected two databases named " ++ e.db.name) := by
              simp [build_dbs, hdir, hget]
            exact ⟨fun coll hok => by simp [hbuild] at hok,
                   fun _ => ⟨_, hbuild⟩⟩
        | none =>
            have hmem : e.db.name ∉ acc.map Prod.fst :=
              (alist_get_eq_none acc e.db.name).mp hget
            have hnd' : ((acc ++ [(e.db.name, e.db)]).map Prod.fst).Nodup := by
              rw [List.map_append, List.nodup_append]
              refine ⟨hnd, List.nodup_singleton _, ?_⟩
              intro a ha hb
              simp at hb
              exact hmem (hb ▸ ha)
            have hbuild : build_dbs (e :: rest) acc =
                build_dbs rest (acc ++ [(e.db.name, e.db)]) := by
              simp [build_dbs, hdir, hget]
            have hrearr :
                (acc ++ [(e.db.name, e.db)]).map Prod.fst ++
                  (dirEntries rest).map (fun x => x.db.name) =
                acc.map Prod.fst ++
                  (dirEntries (e :: rest)).map (fun x => x.db.name) := by
            
              rw [hde, List.map_append, List.map_cons, List.append_assoc]
              rfl
            obtain ⟨ihok, iherr⟩ := ih (acc ++ [(e.db.name, e.db)]) hnd'
            refine ⟨fun coll hok => ?_, fun hdup => ?_⟩
            · rw [hbuild] at hok
              obtain ⟨hcoll, hcnd⟩ := ihok coll hok
              refine ⟨?_, hcnd⟩
              rw [hcoll, hde, List.map_cons, List.append_assoc]
              rfl
            · rw [hbuild]
              exact iherr (by rw [hrearr]; exact hdup)
      · have hde : dirEntries (e :: rest) = dirEntries rest := by
          simp [dirEntries, hdir]
        have hbuild : build_dbs (e :: rest) acc = build_dbs rest acc := by
          simp [build_dbs, hdir]
        obtain ⟨ihok, iherr⟩ := ih acc hnd
        exact ⟨fun coll hok => by rw [hde]; exact ihok coll (hbuild ▸ hok),
               fun hdup => by rw [hbuild]; exact iherr (by rw [hde] at hdup; exact hdup)⟩

/-- C3: the collection build of `cli` (cli.py lines 56-62) fails whenever
two directory entries resolve to the same list name (no silent overwrite),
and every successfully built collection holds exactly the opened
directories under pairwise distinct names, so each name maps to at most
one List. -/
theorem C3_unique_names (entries : List PathEntry) :
    (¬ ((dirEntries entries).map (fun e => e.db.name)).Nodup →
      ∃ msg, build_dbs entries [] = .error msg) ∧
    ∀ coll, build_dbs entries [] = .ok coll →
      coll = (dirEntries entries).map (fun e => (e.db.name, e.db)) ∧
      (coll.map Prod.fst).Nodup := by
  obtain ⟨hok, herr⟩ := build_dbs_spec entries [] (by simp)
  refine ⟨fun hdup => herr (by simpa using hdup), fun coll h => ?_⟩
  obtain ⟨hcoll, hnd⟩ := hok coll h
  exact ⟨by simpa using hcoll, hnd⟩

/-- C3 witness: two distinct directories that open to the same list name
make the build fail, and a clash-free configuration builds a collection
with distinct names. -/
theorem C3_unique_names_witness :
    (∃ msg, build_dbs
      [{ path := "/a/l", isDir := true, db := { name := "l", todos := [] } },
       { path := "/b/l", isDir := true, db := { name := "l", todos := [] } }]
      [] = .error msg) ∧
    ∀ coll, build_dbs
      [{ path := "/a/l", isDir := true, db := { name := "l", todos := [] } }]
      [] = .ok coll →
      coll = [("l", { name := "l", todos := [] })] ∧
      (coll.map Prod.fst).Nodup := by
  constructor
  · exact (C3_unique_names _).1 (by decide)
  · intro coll h
    have := (C3_unique_names _).2 coll h
    simpa [dirEntries] using this

/-- The validating comprehension succeeds on a batch of names exactly when
each resolves, and then returns the resolved Databases pointwise. -/
theorem validate_go_ok (db : Coll) (lists : List String)
    (hall : ∀ n ∈ lists, (alist_get db n).isSome) :
    ∃ sel, _validate_lists_go db lists = .ok sel ∧
      sel.length = lists.length ∧
      ∀ k (h : k < lists.length) (h2 : k < sel.length),
        alist_get db (lists.get ⟨k, h⟩) = some (sel.get ⟨k, h2⟩) := by
  induction lists with
  | nil => exact ⟨[], rfl, rfl, fun k h _ => by simp at h⟩
  | cons n rest ih =>
      have hn := hall n (List.mem_cons_self n rest)
      cases hget : alist_get db n with
      | none => rw [hget] at hn; simp at hn
      | some d =>
          obtain ⟨sel, hsel, hlen, hpt⟩ :=
            ih fun m hm => hall m (List.mem_cons_of_mem n hm)
          refine ⟨d :: sel, ?_, by simp [hlen], fun k h h2 => ?_⟩
          · simp [_validate_lists_go, _validate_list_param, hget, hsel]
          · match k with
            | 0 => simpa using hget
            | k' + 1 =>
                have h' : k' < rest.length := by simpa using h
                have h2' : k' < sel.length := by simpa using h2
                simpa using hpt k' h' h2'

/-- The validating comprehension fails on the first unresolvable name,
with the BadParameter message that names the available lists. -/
theorem validate_go_err (db : Coll) (lists : List String)
    (hbad : ∃ n ∈ lists, alist_get db n = none) :
    ∃ b, b ∈ lists ∧ alist_get db b = none ∧
      _validate_lists_go db lists =
        .error (b ++ ". Available lists are: " ++
          String.intercalate ", " (db.map Prod.fst)) := by
  induction lists with
  | nil => simp at hbad
  | cons n rest ih =>
      cases hget : alist_get db n with
      | none =>
          refine ⟨n, List.mem_cons_self n rest, hget, ?_⟩
          simp [_validate_lists_go, _validate_list_param, hget]
      | some d =>
          have hbad' : ∃ m ∈ rest, alist_get db m = none := by
            obtain ⟨m, hm, hmn⟩ := hbad
            rcases List.mem_cons.mp hm with h1 | h1
            · rw [h1, hget] at hmn; simp at hmn
            · exact ⟨m, h1, hmn⟩
          obtain ⟨b, hb, hbn, hgo⟩ := ih hbad'
          refine ⟨b, List.mem_cons_of_mem n hb, hbn, ?_⟩
          simp [_validate_lists_go, _validate_list_param, hget, hgo]

/-- C7: with no name filters, `list` selects every list of the collection;
with filters, a filter that matches no list name fails the command with a
BadParameter error that names the valid choices, and each matching filter
selects exactly the list stored under that name (cli.py lines 17-31,
147-156). -/
theorem C7_lists_param (db : Coll) (lists : List String) :
    (lists = [] → _validate_lists_param db lists = .ok (db.map Prod.snd)) ∧
    (lists ≠ [] → (∀ n ∈ lists, (alist_get db n).isSome) →
      ∃ sel, _validate_lists_param db lists = .ok sel ∧
        sel.length = lists.length ∧
        ∀ k (h : k < lists.length) (h2 : k < sel.length),
          alist_get db (lists.get ⟨k, h⟩) = some (sel.get ⟨k, h2⟩)) ∧
    ((∃ n ∈ lists, alist_get db n = none) →
      ∃ b, b ∈ lists ∧ alist_get db b = none ∧
        _validate_lists_param db lists =
          .error (b ++ ". Available lists are: " ++
            String.intercalate ", " (db.map Prod.fst))) := by
  refine ⟨fun he => by simp [he, _validate_lists_param], fun hne hall => ?_,
    fun hbad => ?_⟩
  · have hemp : lists.isEmpty = false := by
      cases lists with
      | nil => exact absurd rfl hne
      | cons a l => rfl
    obtain ⟨sel, hsel, hrest⟩ := validate_go_ok db lists hall
    exact ⟨sel, by simpa [_validate_lists_param, hemp] using hsel, hrest⟩
  · have hne : lists ≠ [] := by
      obtain ⟨n, hn, _⟩ := hbad
      exact List.ne_nil_of_mem hn
    have hemp : lists.isEmpty = false := by
      cases lists with
      | nil => exact absurd rfl hne
      | cons a l => rfl
    obtain ⟨b, hb, hbn, hgo⟩ := validate_go_err db lists hbad
    exact ⟨b, hb, hbn, by simpa [_validate_lists_param, hemp] using hgo⟩

/-- C7 witness: on the example collection, no filters select every list, a
matching filter selects the named list, and an unknown filter fails with
the message naming the valid choices. -/
theorem C7_lists_param_witness :
    _validate_lists_param exColl [] = .ok [exDb0] ∧
    _validate_lists_param exColl ["l"] = .ok [exDb0] ∧
    _validate_lists_param exColl ["nope"] =
      .error ("nope. Available lists are: l") := by
  exact ⟨(C7_lists_param exColl []).1 rfl, rfl, rfl⟩

/-- C4: for every id that `done` (cli.py lines 134-141) resolves, the
completion operation sets is_completed and completed_at = now together,
the resulting record satisfies the invariant that completed_at is present
exactly when is_completed holds, and the record is persisted into its
owning list. -/
theorem C4_done_completes (now : Int) (db : Coll)
    (idfile : List (Nat × String × String)) (id : Nat)
    (todo : Todo) (database : Database)
    (h : get_todo db idfile id = .ok (todo, database)) :
    done_cmd now db idfile [id] =
      (coll_save db database.name (complete_todo now todo), none) ∧
    (complete_todo now todo).is_completed = true ∧
    (complete_todo now todo).completed_at = some now ∧
    ((complete_todo now todo).completed_at.isSome
      = (complete_todo now todo).is_completed) ∧
    alist_get (database.save (complete_todo now todo)).todos
      (complete_todo now todo).filename = some (complete_todo now todo) := by
  refine ⟨?_, rfl, rfl, rfl, ?_⟩
  · simp [done_cmd, h]
  · simp [Database.save, alist_get_set_self]

/-- C4 witness: completing the concrete record of the example collection
through id 1. -/
theorem C4_done_completes_witness :
    done_cmd 100 exColl exIdfile [1] =
      (coll_save exColl exDb0.name (complete_todo 100 exTodo0), none) ∧
    (complete_todo 100 exTodo0).is_completed = true ∧
    (complete_todo 100 exTodo0).completed_at = some 100 ∧
    ((complete_todo 100 exTodo0).completed_at.isSome
      = (complete_todo 100 exTodo0).is_completed) ∧
    alist_get (exDb0.save (complete_todo 100 exTodo0)).todos
      (complete_todo 100 exTodo0).filename = some (complete_todo 100 exTodo0) :=
  C4_done_completes 100 exColl exIdfile 1 exTodo0 exDb0 rfl

/-- C5 counterexample: the claim says a failing id in a `done` batch is
isolated and the remaining ids still complete, but the loop of `done`
(cli.py lines 138-141) has no per-id exception handling: on the batch
[2, 1] against an index holding only position 1, the stale id 2 aborts the
whole run, the collection is left unchanged, and the perfectly resolvable
id 1 (still incomplete) is never processed. -/
theorem C5_stale_aborts_batch :
    done_cmd 100 exColl exIdfile [2, 1] = (exColl, some "no task found") ∧
    get_todo exColl exIdfile 1 = .ok (exTodo0, exDb0) ∧
    exTodo0.is_completed = false := by
  exact ⟨rfl, rfl, rfl⟩

/-- C5 (amended): a failing id still surfaces as the command's error
(non-zero exit), but the batch stops there: the ids before the failing one
are completed and persisted, and the ids after it are not processed. -/
theorem C5_batch_stops_at_failure (now : Int) (db db' : Coll)
    (idfile : List (Nat × String × String)) (pre : List Nat) (id : Nat)
    (post : List Nat) (e : String)
    (h1 : done_cmd now db idfile pre = (db', none))
    (h2 : get_todo db' idfile id = .error e) :
    done_cmd now db idfile (pre ++ id :: post) = (db', some e) := by
  induction pre generalizing db with
  | nil =>
      have hdb : db = db' := congrArg Prod.fst h1
      subst hdb
      simp [done_cmd, h2]
  | cons p ps ih =>
      cases hgp : get_todo db idfile p with
      | error e' =>
          rw [show done_cmd now db idfile (p :: ps) = (db, some e') by
            simp [done_cmd, hgp]] at h1
          exact absurd (congrArg Prod.snd h1) (by simp)
      | ok pr =>
          obtain ⟨t, d⟩ := pr
          rw [show done_cmd now db idfile (p :: ps) =
              done_cmd now (coll_save db d.name (complete_todo now t))
                idfile ps by simp [done_cmd, hgp]] at h1
          have := ih (coll_save db d.name (complete_todo now t)) h1
          simpa [done_cmd, hgp] using this

/-- C5 amended-claim witness: processing [1] succeeds, then the stale id 2
aborts with the resolution error, leaving the tail [3] untouched. -/
theorem C5_batch_stops_at_failure_witness :
    done_cmd 100 exColl exIdfile ([1] ++ 2 :: [3]) =
      (coll_save exColl exDb0.name (complete_todo 100 exTodo0),
       some "no task found") :=
  C5_batch_stops_at_failure 100 exColl
    (coll_save exColl exDb0.name (complete_todo 100 exTodo0)) exIdfile
    [1] 2 [3] "no task found" rfl rfl

/-- C8: when the interactive editor signals cancellation, `new` (cli.py
lines 94-97) exits with the distinct status 1 having saved nothing, and
`edit` (cli.py lines 110-117) persists nothing; `edit` saves exactly when
the editor reports a save, and then persists the mutated record to its
owning list. -/
theorem C8_cancel_no_save (editor : Todo → Bool × Todo)
    (summary : List String) (l : Database) (due : Option Int)
    (db : Coll) (idfile : List (Nat × String × String)) (id : Nat) :
    ((editor (new_draft summary due)).1 = false →
      new_cmd editor summary l due true = .cancelled) ∧
    (NewOutcome.cancelled ≠ NewOutcome.usageError) ∧
    (∀ todo database, get_todo db idfile id = .ok (todo, database) →
      ((editor todo).1 = false → edit_cmd editor db idfile id = .ok none) ∧
      ((editor todo).1 = true →
        edit_cmd editor db idfile id =
          .ok (some (database.save (editor todo).2, (editor todo).2)))) := by
  refine ⟨fun hc => ?_, by simp, fun todo database h => ⟨fun hc => ?_, fun hs => ?_⟩⟩
  · rcases hq : editor (new_draft summary due) with ⟨b, t⟩
    rw [hq] at hc
    simp at hc
    subst hc
    simp [new_cmd, hq]
  · rcases hq : editor todo with ⟨b, t⟩
    rw [hq] at hc
    simp at hc
    subst hc
    simp [edit_cmd, h, hq]
  · rcases hq : editor todo with ⟨b, t⟩
    rw [hq] at hs
    simp at hs
    subst hs
    simp [edit_cmd, h, hq]

/-- C8 witness: a cancelling editor on concrete inputs: `new` exits
cancelled and `edit` persists nothing. -/
theorem C8_cancel_no_save_witness :
    new_cmd (fun t => (false, t)) ["x"] exDb0 none true = .cancelled ∧
    edit_cmd (fun t => (false, t)) exColl exIdfile 1 = .ok none := by
  refine ⟨(C8_cancel_no_save (fun t => (false, t)) ["x"] exDb0 none exColl
    exIdfile 1).1 rfl, ?_⟩
  exact ((C8_cancel_no_save (fun t => (false, t)) ["x"] exDb0 none exColl
    exIdfile 1).2.2 exTodo0 exDb0 rfl).1 rfl

/-- C6: if rendering the row at offset k fails, the `list` loop (cli.py
lines 171-184) still indexes every row (the errored one included, at its
already-assigned position k + 1), still prints one line for every row, and
the errored row's line is the inline error line attributed to its list
name and filename. -/
theorem C6_render_failure_isolated
    (render : Database → Todo → Except String String)
    (rows : List (Database × Todo)) (k : Nat) (e : String)
    (hk : k < rows.length)
    (he : render (rows.get ⟨k, hk⟩).1 (rows.get ⟨k, hk⟩).2 = .error e) :
    (render_loop render rows 1).1 = idsFrom 1 rows ∧
    (render_loop render rows 1).2.length = rows.length ∧
    (∀ h2 : k < (render_loop render rows 1).2.length,
      (render_loop render rows 1).2.get ⟨k, h2⟩ =
        errorLine (rows.get ⟨k, hk⟩).1 (rows.get ⟨k, hk⟩).2 e) ∧
    alist_get (idsFrom 1 rows) (k + 1) =
      some ((rows.get ⟨k, hk⟩).1.name, (rows.get ⟨k, hk⟩).2.filename) := by
  refine ⟨render_loop_fst render rows 1, render_loop_snd_length render rows 1,
    fun h2 => ?_, ?_⟩
  · rw [render_loop_snd_get render rows 1 k hk h2]
    unfold lineOf
    rw [he]
  · have h : (k + 1) - 1 < rows.length := by simpa using hk
    rw [idsFrom_lookup rows 1 (k + 1) (by omega) h]
    rfl

/-- C6 witness: a renderer that fails on the single concrete row. -/
theorem C6_render_failure_isolated_witness :
    (render_loop (fun _ _ => .error "boom") [(exDb0, exTodo0)] 1).1 =
      idsFrom 1 [(exDb0, exTodo0)] ∧
    (render_loop (fun _ _ => .error "boom") [(exDb0, exTodo0)] 1).2.length =
      [(exDb0, exTodo0)].length ∧
    (∀ h2 : 0 < (render_loop (fun _ _ => .error "boom")
        [(exDb0, exTodo0)] 1).2.length,
      (render_loop (fun _ _ => .error "boom") [(exDb0, exTodo0)] 1).2.get
          ⟨0, h2⟩ = errorLine exDb0 exTodo0 "boom") ∧
    alist_get (idsFrom 1 [(exDb0, exTodo0)]) (0 + 1) =
      some (exDb0.name, exTodo0.filename) :=
  C6_render_failure_isolated (fun _ _ => .error "boom") [(exDb0, exTodo0)]
    0 "boom" (by decide) rfl

/-- A successful run of the validating comprehension only returns
Databases stored in the collection. -/
theorem validate_go_from_db (db : Coll) (lists : List String)
    (sel : List Database) (h : _validate_lists_go db lists = .ok sel) :
    ∀ d ∈ sel, ∃ nm, (nm, d) ∈ db := by
  induction lists generalizing sel with
  | nil =>
      have : sel = [] := by
        simpa [_validate_lists_go] using h.symm
      subst this
      simp
  | cons n rest ih =>
      cases hget : alist_get db n with
      | none =>
          simp [_validate_lists_go, _validate_list_param, hget] at h
      | some d0 =>
          cases hgo : _validate_lists_go db rest with
          | error e =>
              simp [_validate_lists_go, _validate_list_param, hget, hgo] at h
          | ok ds =>
              have hsel : sel = d0 :: ds := by
                simpa [_validate_lists_go, _validate_list_param, hget, hgo]
                  using h.symm
              subst hsel
              intro d hd
              rcases List.mem_cons.mp hd with h1 | h1
              · exact ⟨n, h1 ▸ alist_get_mem hget⟩
              · exact ih ds hgo d h1

/-- A successful validation only selects Databases stored in the
collection. -/
theorem validate_sel_from_db (db : Coll) (lists : List String)
    (sel : List Database) (h : _validate_lists_param db lists = .ok sel) :
    ∀ d ∈ sel, ∃ nm, (nm, d) ∈ db := by
  unfold _validate_lists_param at h
  by_cases he : lists.isEmpty
  · rw [if_pos he] at h
    have : db.map Prod.snd = sel := by simpa using h
    intro d hd
    rw [← this] at hd
    rcases List.mem_map.mp hd with ⟨p, hp, hpd⟩
    exact ⟨p.1, by rw [← hpd]; exact hp⟩
  · rw [if_neg he] at h
    exact validate_go_from_db db lists sel h

/-- A sorting helper: a list equal to a singleton sorts to itself. -/
theorem mergeSort_of_eq_singleton {α : Type} (le : α → α → Bool) (a : α)
    (l : List α) (h : l = [a]) : l.mergeSort le = [a] := by
  subst h
  exact List.perm_singleton.mp (List.mergeSort_perm _ _)

/-- C1: after a `list` run (cli.py lines 144-184) that produced the index
`ids` for its rendered rows, resolving any position k between 1 and the
row count through `get_todo` returns exactly the record and list that were
rendered at position k, provided the collection keys its Databases by
their names and each Database keys its records by their filenames, both
without duplicates (the shape a successful collection build and the
underlying Python dicts guarantee). -/
theorem C1_round_trip (render : Database → Todo → Except String String)
    (sortKey : Todo → Int) (now : Int) (db : Coll) (lists : List String)
    (sel : List Database) (ids : List (Nat × String × String))
    (out : List String) (rows : List (Database × Todo)) (k : Nat)
    (hkeys : (db.map Prod.fst).Nodup)
    (hname : ∀ p ∈ db, (p.2 : Database).name = p.1)
    (htkeys : ∀ p ∈ db, ∀ q ∈ (p.2 : Database).todos, (q.2 : Todo).filename = q.1)
    (htdup : ∀ p ∈ db, (((p.2 : Database).todos).map Prod.fst).Nodup)
    (hsel : _validate_lists_param db lists = .ok sel)
    (hcmd : list_cmd render sortKey now db lists = .ok (ids, out))
    (hrows : rows = list_rows sortKey now sel)
    (hk1 : 1 ≤ k) (hk : k - 1 < rows.length) :
    get_todo db ids k =
      .ok ((rows.get ⟨k - 1, hk⟩).2, (rows.get ⟨k - 1, hk⟩).1) := by
  have hids : ids = idsFrom 1 rows := by
    unfold list_cmd at hcmd
    rw [hsel] at hcmd
    have : render_loop render (list_rows sortKey now sel) 1 = (ids, out) := by
      simpa using hcmd
    rw [← hrows] at this
    have h1 : (render_loop render rows 1).1 = ids := congrArg Prod.fst this
    rw [render_loop_fst] at h1
    exact h1.symm
  have hlook : alist_get ids k =
      some ((rows.get ⟨k - 1, hk⟩).1.name, (rows.get ⟨k - 1, hk⟩).2.filename) := by
    rw [hids]
    exact idsFrom_lookup rows 1 k hk1 hk
  have hmem : rows.get ⟨k - 1, hk⟩ ∈ rows := List.get_mem rows (k - 1) hk
  have hmem2 : rows.get ⟨k - 1, hk⟩ ∈ list_rows sortKey now sel := by
    rw [← hrows]
    exact hmem
  obtain ⟨hdsel, ⟨fn, hfn⟩, _⟩ :=
    (mem_list_rows sortKey now sel (rows.get ⟨k - 1, hk⟩).1
      (rows.get ⟨k - 1, hk⟩).2).mp hmem2
  obtain ⟨nm, hnm⟩ := validate_sel_from_db db lists sel hsel _ hdsel
  have hnmname : (rows.get ⟨k - 1, hk⟩).1.name = nm := hname (nm, _) hnm
  have hdb : alist_get db (rows.get ⟨k - 1, hk⟩).1.name =
      some (rows.get ⟨k - 1, hk⟩).1 := by
    rw [hnmname]
    exact alist_get_of_mem hkeys hnm
  have hfneq : (rows.get ⟨k - 1, hk⟩).2.filename = fn :=
    htkeys (nm, _) hnm (fn, _) hfn
  have htodo : alist_get (rows.get ⟨k - 1, hk⟩).1.todos
      (rows.get ⟨k - 1, hk⟩).2.filename = some (rows.get ⟨k - 1, hk⟩).2 := by
    rw [hfneq]
    exact alist_get_of_mem (htdup (nm, _) hnm) hfn
  simp only [get_todo, hlook, hdb, htodo]

/-- C1 witness: a concrete one-row listing round-trips through id 1. -/
theorem C1_round_trip_witness :
    get_todo exColl [(1, "l", "a.ics")] 1 =
      .ok (([(exDb0, exTodo0)].get ⟨1 - 1, by decide⟩).2,
           ([(exDb0, exTodo0)].get ⟨1 - 1, by decide⟩).1) := by
  have hrows : ([(exDb0, exTodo0)] : List (Database × Todo)) =
      list_rows (fun _ => 0) 0 [exDb0] :=
    (mergeSort_of_eq_singleton _ (exDb0, exTodo0) _ rfl).symm
  have hstep : list_cmd (fun _ _ => .ok "s") (fun _ => 0) 0 exColl [] =
      .ok (render_loop (fun _ _ => .ok "s")
        (list_rows (fun _ => 0) 0 [exDb0]) 1) := rfl
  have hcmd : list_cmd (fun _ _ => .ok "s") (fun _ => 0) 0 exColl [] =
      .ok ([(1, "l", "a.ics")], [" 1 s"]) := by
    rw [hstep, ← hrows]
    rfl
  exact C1_round_trip (fun _ _ => .ok "s") (fun _ => 0) 0 exColl [] [exDb0]
    [(1, "l", "a.ics")] [" 1 s"] [(exDb0, exTodo0)] 1
    (by decide) (by decide) (by decide) (by decide) rfl hcmd hrows
    (by decide) (by decide)
